import Mathlib

/-!
Shallow embedding of the playback sequencing core of
`src/components/QuranAudio.tsx` (the `QuranAudio` React component) together
with its load-time merge (`fetchAll`) and the scroll-offset computation of the
two `useLayoutEffect` blocks.

Handlers are modelled as functions from the component state to a *script*:
the ordered list of elementary effects the handler performs (state updates,
audio-device commands, and `setTimeout` suspensions).  `runScript` folds a
script over a state; `fireAfterInterrupt` models a manual selection arriving
while a handler is suspended at its `await setTimeout` point.
-/

/-- The surah metadata records kept in the `surahs` state array. -/
structure SurahMeta where
  number : Nat
  name : String
  englishName : String
deriving DecidableEq

/-- The merged `Ayah` records kept in the `ayahs` state array. -/
structure Ayah where
  number : Nat
  audio : String
  text : String
  transliteration : String
  translation : String
  surah : SurahMeta
deriving DecidableEq

/-- One ayah of a raw edition as returned by the content API
(`audio` is optional in the `QuranResponse` interface). -/
structure SrcAyah where
  number : Nat
  audio : Option String
  text : String
deriving DecidableEq

/-- One surah of a raw edition as returned by the content API. -/
structure SrcSurah where
  number : Nat
  name : String
  englishName : String
  ayahs : List SrcAyah
deriving DecidableEq

/-- The merged ayah built by `fetchAll`'s `combined` expression for the
ayah at position `ai` of the surah at position `si` of the recitation
edition: identifier, audio (defaulted to `""`), text and surah labels come
from the recitation item `a` / surah `s`; transliteration and translation
are looked up *positionally* (`tr.surahs?.[si]?.ayahs?.[ai]?.text ?? ""`). -/
def mergeAyah (tr en : List SrcSurah) (si ai : Nat) (s : SrcSurah) (a : SrcAyah) : Ayah :=
  { number := a.number
    audio := a.audio.getD ""
    text := a.text
    transliteration := (((tr.get? si).bind fun su => su.ayahs.get? ai).map SrcAyah.text).getD ""
    translation := (((en.get? si).bind fun su => su.ayahs.get? ai).map SrcAyah.text).getD ""
    surah := { number := s.number, name := s.name, englishName := s.englishName } }

/-- The inner `s.ayahs.map((a, ai) => ...)` of `fetchAll`, with the running
ayah index made explicit. -/
def combineAyahs (tr en : List SrcSurah) (si : Nat) (s : SrcSurah) : Nat → List SrcAyah → List Ayah
  | _, [] => []
  | ai, a :: rest => mergeAyah tr en si ai s a :: combineAyahs tr en si s (ai + 1) rest

/-- The outer `ar.surahs.flatMap((s, si) => ...)` of `fetchAll`, with the
running surah index made explicit. -/
def combineFrom (tr en : List SrcSurah) : Nat → List SrcSurah → List Ayah
  | _, [] => []
  | si, s :: rest => combineAyahs tr en si s 0 s.ayahs ++ combineFrom tr en (si + 1) rest

/-- `fetchAll`'s `combined` list: the three editions merged positionally. -/
def mergeEditions (ar tr en : List SrcSurah) : List Ayah :=
  combineFrom tr en 0 ar

/-- `fetchAll`'s `surahList`. -/
def surahListOf (ar : List SrcSurah) : List SurahMeta :=
  ar.map fun s => { number := s.number, name := s.name, englishName := s.englishName }

/-- Flattened index of ayah `ai` of surah `siK` inside the merged list. -/
def flatIdx (ar : List SrcSurah) (siK ai : Nat) : Nat :=
  (((ar.take siK).map fun s => s.ayahs.length).sum) + ai

/-- The component state of `QuranAudio` that the sequencing core reads and
writes.  `audioPresent` models whether `audioRef.current` is non-null;
`audioSrc` models the `src` attribute of the audio element. -/
structure PlayerState where
  ayahs : List Ayah
  surahs : List SurahMeta
  currentSurah : Option Nat
  currentAyah : Option Nat
  audioPresent : Bool
  audioSrc : String
deriving DecidableEq

/-- One elementary effect of a handler, in program order: a `setCurrentSurah`
or `setCurrentAyah` state update, an assignment to `audioRef.current.src`, a
`play()` call, or an `await setTimeout` suspension of `ms` milliseconds. -/
inductive PStep where
  | setSurah (n : Nat)
  | setAyah (i : Nat)
  | loadSrc (src : String)
  | play
  | wait (ms : Nat)
deriving DecidableEq

/-- Effect of one step on the component state (`play` and `wait` do not
change state). -/
def applyStep (s : PlayerState) : PStep → PlayerState
  | .setSurah n => { s with currentSurah := some n }
  | .setAyah i => { s with currentAyah := some i }
  | .loadSrc src => { s with audioSrc := src }
  | .play => s
  | .wait _ => s

/-- Run a whole script to completion. -/
def runScript (s : PlayerState) (steps : List PStep) : PlayerState :=
  steps.foldl applyStep s

/-- The derived `filteredAyahs` value:
`currentSurah ? ayahs.filter(a => a.surah.number === currentSurah) : []`.
JavaScript truthiness makes a surah number `0` behave like "no selection". -/
def filteredAyahs (s : PlayerState) : List Ayah :=
  match s.currentSurah with
  | none => []
  | some n => if n = 0 then [] else s.ayahs.filter fun a => a.surah.number == n

/-- The surah-button `onClick` handler (both the desktop and the mobile list
use the identical body): `setCurrentSurah(s.number); setCurrentAyah(0);`
then find the first ayah of that surah and, if the audio element exists and
an ayah was found, load and play its audio. -/
def selectSectionScript (s : PlayerState) (m : SurahMeta) : List PStep :=
  [PStep.setSurah m.number, PStep.setAyah 0] ++
    match s.ayahs.find? fun a => a.surah.number == m.number with
    | some firstAyah =>
        if s.audioPresent then [PStep.loadSrc firstAyah.audio, PStep.play] else []
    | none => []

/-- `handlePlayAyah(index)`: look up `filteredAyahs[index]`; bail out if it
is absent or the audio element is missing; otherwise set the source, play,
and set the current ayah index. -/
def handlePlayAyahScript (s : PlayerState) (index : Nat) : List PStep :=
  match (filteredAyahs s).get? index with
  | none => []
  | some ayah =>
      if s.audioPresent then
        [PStep.loadSrc ayah.audio, PStep.play, PStep.setAyah index]
      else []

/-- `surahs.findIndex(s => s.number === currentSurah)`, with JavaScript's
`-1`-on-absence folded into the `+ 1` that follows it in `handleEnded`
(absence yields index `0`). -/
def findIdxFrom (p : SurahMeta → Bool) : Nat → List SurahMeta → Option Nat
  | _, [] => none
  | i, x :: xs => if p x then some i else findIdxFrom p (i + 1) xs

/-- `handleEnded`'s `nextSurahIndex = surahs.findIndex(...) + 1`. -/
def nextSurahIndexOf (s : PlayerState) : Nat :=
  match findIdxFrom (fun su => match s.currentSurah with
    | some c => su.number == c
    | none => false) 0 s.surahs with
  | some i => i + 1
  | none => 0

/-- `handleEnded`: guard on `currentAyah === null || !filteredAyahs.length
|| !audioRef.current`; if `next` is in range, set the ayah index, load the
next source, wait 1s, play; otherwise resolve the next surah positionally,
and if it exists wait 2s, switch to it at index 0, and play its first ayah
when that surah has any ayahs. -/
def handleEndedScript (s : PlayerState) : List PStep :=
  match s.currentAyah, s.audioPresent with
  | none, _ => []
  | some _, false => []
  | some cur, true =>
      let fa := filteredAyahs s
      if fa.length = 0 then []
      else
        if h : cur + 1 < fa.length then
          [PStep.setAyah (cur + 1), PStep.loadSrc (fa.get ⟨cur + 1, h⟩).audio,
            PStep.wait 1000, PStep.play]
        else
          match s.surahs.get? (nextSurahIndexOf s) with
          | none => []
          | some ns =>
              [PStep.wait 2000, PStep.setSurah ns.number, PStep.setAyah 0] ++
                match s.ayahs.filter fun a => a.surah.number == ns.number with
                | [] => []
                | a :: _ => [PStep.loadSrc a.audio, PStep.play]

/-- Split a script at its first `wait` suspension: the part executed before
the handler suspends (the `wait` included) and the continuation that the
timer will run later. -/
def splitAtWait : List PStep → List PStep × List PStep
  | [] => ([], [])
  | PStep.wait ms :: rest => ([PStep.wait ms], rest)
  | st :: rest =>
      let r := splitAtWait rest
      (st :: r.1, r.2)

/-- Interleaved execution: run `script` up to its first suspension, let a
manual `interrupt` handler run during the pending delay, then let the timer
fire the stale continuation.  This is the event ordering of the single
threaded browser loop. -/
def fireAfterInterrupt (s : PlayerState) (script : List PStep)
    (interrupt : PlayerState → List PStep) : PlayerState :=
  let s1 := runScript s (splitAtWait script).1
  let s2 := runScript s1 (interrupt s1)
  runScript s2 (splitAtWait script).2

/-- The scroll-target computation shared by both `useLayoutEffect` blocks:
`offset = node.offsetTop - container.clientHeight / 2 + node.offsetHeight / 2`
followed by `scrollTo({ top: Math.max(offset, 0) })`. -/
def scrollTarget (containerHeight elemTop elemHeight : ℚ) : ℚ :=
  let offset := elemTop - containerHeight / 2 + elemHeight / 2
  max offset 0

/-! Concrete fixtures used by witnesses and counterexamples. -/

def mA : SurahMeta := { number := 1, name := "alif", englishName := "Alpha" }

def mB : SurahMeta := { number := 2, name := "ba", englishName := "Beta" }

def mC : SurahMeta := { number := 3, name := "jim", englishName := "Gamma" }

def ayA1 : Ayah :=
  { number := 1, audio := "uA1", text := "tA1", transliteration := "rA1",
    translation := "eA1", surah := mA }

def ayA2 : Ayah :=
  { number := 2, audio := "", text := "tA2", transliteration := "rA2",
    translation := "eA2", surah := mA }

def ayB1 : Ayah :=
  { number := 3, audio := "uB1", text := "tB1", transliteration := "rB1",
    translation := "eB1", surah := mB }

def ayC1 : Ayah :=
  { number := 4, audio := "uC1", text := "tC1", transliteration := "rC1",
    translation := "eC1", surah := mC }

/-- Surah 1 active at its first of two ayahs; surah 2 follows. -/
def stStart : PlayerState :=
  { ayahs := [ayA1, ayA2, ayB1], surahs := [mA, mB], currentSurah := some 1,
    currentAyah := some 0, audioPresent := true, audioSrc := "uA1" }

/-- Surah 1 active at its last ayah (index 1 of 2); surah 2 follows. -/
def stLast : PlayerState :=
  { ayahs := [ayA1, ayA2, ayB1], surahs := [mA, mB], currentSurah := some 1,
    currentAyah := some 1, audioPresent := true, audioSrc := "" }

/-- Three surahs of one ayah each, surah 1 active at its only (last) ayah. -/
def stRace : PlayerState :=
  { ayahs := [ayA1, ayB1, ayC1], surahs := [mA, mB, mC], currentSurah := some 1,
    currentAyah := some 0, audioPresent := true, audioSrc := "uA1" }

/-- Surah 2 is present in the surah list but owns no ayahs at all. -/
def stEmptyB : PlayerState :=
  { ayahs := [ayA1], surahs := [mA, mB], currentSurah := some 1,
    currentAyah := some 0, audioPresent := true, audioSrc := "uA1" }

def srcAyah1 : SrcAyah := { number := 1, audio := some "u1", text := "x1" }

def srcAyah2 : SrcAyah := { number := 2, audio := none, text := "x2" }

def srcSurahAr : SrcSurah :=
  { number := 1, name := "alif", englishName := "Alpha", ayahs := [srcAyah1, srcAyah2] }

def srcSurahTr : SrcSurah :=
  { number := 1, name := "alif", englishName := "Alpha",
    ayahs := [{ number := 1, audio := none, text := "r1" }] }

def edAr : List SrcSurah := [srcSurahAr]

def edTr : List SrcSurah := [srcSurahTr]

def edEn : List SrcSurah := []

/-! Helper lemmas about `runScript` and the derived state. -/

theorem runScript_nil (s : PlayerState) : runScript s [] = s := rfl

theorem runScript_cons (s : PlayerState) (st : PStep) (l : List PStep) :
    runScript s (st :: l) = runScript (applyStep s st) l := rfl

theorem applyStep_ayahs (s : PlayerState) (st : PStep) : (applyStep s st).ayahs = s.ayahs := by
  cases st <;> rfl

theorem applyStep_surahs (s : PlayerState) (st : PStep) : (applyStep s st).surahs = s.surahs := by
  cases st <;> rfl

theorem applyStep_audioPresent (s : PlayerState) (st : PStep) :
    (applyStep s st).audioPresent = s.audioPresent := by
  cases st <;> rfl

theorem runScript_ayahs (l : List PStep) : ∀ s : PlayerState, (runScript s l).ayahs = s.ayahs := by
  induction l with
  | nil => intro s; rfl
  | cons st l ih => intro s; rw [runScript_cons, ih, applyStep_ayahs]

theorem runScript_surahs (l : List PStep) : ∀ s : PlayerState, (runScript s l).surahs = s.surahs := by
  induction l with
  | nil => intro s; rfl
  | cons st l ih => intro s; rw [runScript_cons, ih, applyStep_surahs]

theorem runScript_audioPresent (l : List PStep) :
    ∀ s : PlayerState, (runScript s l).audioPresent = s.audioPresent := by
  induction l with
  | nil => intro s; rfl
  | cons st l ih => intro s; rw [runScript_cons, ih, applyStep_audioPresent]

theorem filteredAyahs_congr {s1 s2 : PlayerState} (ha : s1.ayahs = s2.ayahs)
    (hc : s1.currentSurah = s2.currentSurah) : filteredAyahs s1 = filteredAyahs s2 := by
  unfold filteredAyahs
  rw [hc, ha]

theorem head?_filter_eq_find? {α : Type} (p : α → Bool) :
    ∀ l : List α, (l.filter p).head? = l.find? p := by
  intro l
  induction l with
  | nil => rfl
  | cons x xs ih =>
      by_cases h : p x <;> simp [List.filter_cons, List.find?_cons, h, ih]

/-! ### C1 -/

/-- C1: at position `(S, i)` with `i + 1 < N`, `handleEnded` advances the
position to `(S, i + 1)` and, after a 1-second settling delay, issues a play
command for item `i + 1`'s (already loaded) audio locator. -/
theorem c1_handleEnded_advances (s : PlayerState) (i : Nat)
    (hA : s.audioPresent = true) (hI : s.currentAyah = some i)
    (hN : i + 1 < (filteredAyahs s).length) :
    ∃ a, (filteredAyahs s).get? (i + 1) = some a ∧
      handleEndedScript s =
        [PStep.setAyah (i + 1), PStep.loadSrc a.audio, PStep.wait 1000, PStep.play] ∧
      (runScript s (handleEndedScript s)).currentSurah = s.currentSurah ∧
      (runScript s (handleEndedScript s)).currentAyah = some (i + 1) := by
  have hscript : handleEndedScript s =
      [PStep.setAyah (i + 1), PStep.loadSrc ((filteredAyahs s).get ⟨i + 1, hN⟩).audio,
        PStep.wait 1000, PStep.play] := by
    simp only [handleEndedScript, hI, hA]
    rw [if_neg (by omega), dif_pos hN]
  refine ⟨(filteredAyahs s).get ⟨i + 1, hN⟩, List.get?_eq_get hN, hscript, ?_, ?_⟩ <;>
    rw [hscript] <;> rfl

theorem c1_witness :
    ∃ a, (filteredAyahs stStart).get? 1 = some a ∧
      handleEndedScript stStart =
        [PStep.setAyah 1, PStep.loadSrc a.audio, PStep.wait 1000, PStep.play] ∧
      (runScript stStart (handleEndedScript stStart)).currentSurah = stStart.currentSurah ∧
      (runScript stStart (handleEndedScript stStart)).currentAyah = some 1 :=
  c1_handleEnded_advances stStart 0 rfl rfl (by decide)

/-! ### C5 -/

/-- C5: `selectSection(S)` on a section with at least one item sets the
position to `(S, 0)`, makes that item the head of the filtered list, and
(when the audio element exists) loads and plays the first item's audio. -/
theorem c5_selectSection_nonempty (s : PlayerState) (m : SurahMeta) (a : Ayah)
    (hm : m ∈ s.surahs) (hpos : 0 < m.number)
    (hfind : (s.ayahs.find? fun x => x.surah.number == m.number) = some a) :
    (runScript s (selectSectionScript s m)).currentSurah = some m.number ∧
    (runScript s (selectSectionScript s m)).currentAyah = some 0 ∧
    (filteredAyahs (runScript s (selectSectionScript s m))).head? = some a ∧
    (s.audioPresent = true →
      selectSectionScript s m =
        [PStep.setSurah m.number, PStep.setAyah 0, PStep.loadSrc a.audio, PStep.play]) := by
  have hscript : selectSectionScript s m =
      [PStep.setSurah m.number, PStep.setAyah 0] ++
        (if s.audioPresent then [PStep.loadSrc a.audio, PStep.play] else []) := by
    simp [selectSectionScript, hfind]
  have hhead : ∀ s' : PlayerState, s'.ayahs = s.ayahs → s'.currentSurah = some m.number →
      (filteredAyahs s').head? = some a := by
    intro s' hay hcs
    rw [show filteredAyahs s' = s.ayahs.filter (fun x => x.surah.number == m.number) by
      simp only [filteredAyahs, hcs, hay]
      rw [if_neg (by omega)]]
    rw [head?_filter_eq_find?, hfind]
  cases hA : s.audioPresent with
  | false =>
      rw [hA, if_neg (by decide)] at hscript
      refine ⟨?_, ?_, ?_, fun h => by simp [hA] at h⟩
      · rw [hscript]; rfl
      · rw [hscript]; rfl
      · exact hhead _ (by rw [hscript]; rfl) (by rw [hscript]; rfl)
  | true =>
      rw [hA, if_pos rfl] at hscript
      refine ⟨?_, ?_, ?_, fun _ => hscript⟩
      · rw [hscript]; rfl
      · rw [hscript]; rfl
      · exact hhead _ (by rw [hscript]; rfl) (by rw [hscript]; rfl)

theorem c5_witness :
    (runScript stStart (selectSectionScript stStart mB)).currentSurah = some mB.number ∧
    (runScript stStart (selectSectionScript stStart mB)).currentAyah = some 0 :=
  ⟨(c5_selectSection_nonempty stStart mB ayB1 (by decide) (by decide) (by decide)).1,
   (c5_selectSection_nonempty stStart mB ayB1 (by decide) (by decide) (by decide)).2.1⟩

/-! ### C6 -/

/-- C6 counterexample: surah 2 is in `stEmptyB`'s surah list and owns no
ayahs, yet `selectSection` leaves the item index at `some 0`, not `none` as
the claim states. -/
theorem c6_counterexample :
    (runScript stEmptyB (selectSectionScript stEmptyB mB)).currentAyah = some 0 ∧
    ¬ (runScript stEmptyB (selectSectionScript stEmptyB mB)).currentAyah = none := by
  decide

/-- C6 amended: `selectSection(S)` on a section with no items sets the
position to `(S, 0)` — index `0` into the (empty) filtered list — and
issues no play command. -/
theorem c6_selectSection_empty (s : PlayerState) (m : SurahMeta)
    (hm : m ∈ s.surahs)
    (hEmpty : (s.ayahs.find? fun a => a.surah.number == m.number) = none) :
    selectSectionScript s m = [PStep.setSurah m.number, PStep.setAyah 0] ∧
    (runScript s (selectSectionScript s m)).currentSurah = some m.number ∧
    (runScript s (selectSectionScript s m)).currentAyah = some 0 ∧
    PStep.play ∉ selectSectionScript s m ∧
    filteredAyahs (runScript s (selectSectionScript s m)) = [] := by
  have hscript : selectSectionScript s m = [PStep.setSurah m.number, PStep.setAyah 0] := by
    simp [selectSectionScript, hEmpty]
  have hfilter : (s.ayahs.filter fun a => a.surah.number == m.number) = [] :=
    List.filter_eq_nil_iff.mpr (by
      intro a ha
      exact List.find?_eq_none.mp hEmpty a ha)
  refine ⟨hscript, by rw [hscript]; rfl, by rw [hscript]; rfl, by rw [hscript]; simp, ?_⟩
  have hcs : (runScript s (selectSectionScript s m)).currentSurah = some m.number := by
    rw [hscript]; rfl
  have hay : (runScript s (selectSectionScript s m)).ayahs = s.ayahs := runScript_ayahs _ _
  simp only [filteredAyahs, hcs, hay]
  by_cases h0 : m.number = 0
  · rw [if_pos h0]
  · rw [if_neg h0]
    exact hfilter

theorem c6_witness :
    selectSectionScript stEmptyB mB = [PStep.setSurah mB.number, PStep.setAyah 0] ∧
    filteredAyahs (runScript stEmptyB (selectSectionScript stEmptyB mB)) = [] :=
  ⟨(c6_selectSection_empty stEmptyB mB (by decide) (by decide)).1,
   (c6_selectSection_empty stEmptyB mB (by decide) (by decide)).2.2.2.2⟩

/-! ### C7 -/

/-- C7 counterexample: item 1 of the active section of `stStart` has an
empty audio locator, yet `handlePlayAyah 1` does issue a play command (the
source code calls `play()` unconditionally and only swallows the failure). -/
theorem c7_counterexample :
    (filteredAyahs stStart).get? 1 = some ayA2 ∧ ayA2.audio = "" ∧
    PStep.play ∈ handlePlayAyahScript stStart 1 := by
  decide

/-- C7 amended: selecting an item with an empty audio locator updates the
Playback Position (hence the visual focus), and issues a play command with
the empty locator — whose failure the code swallows — rather than skipping
the play command; the same holds when the item is reached by auto-advance. -/
theorem c7_empty_locator (s : PlayerState) (i : Nat) (a : Ayah)
    (hA : s.audioPresent = true)
    (hGet : (filteredAyahs s).get? i = some a)
    (hEmpty : a.audio = "") :
    handlePlayAyahScript s i = [PStep.loadSrc "", PStep.play, PStep.setAyah i] ∧
    (runScript s (handlePlayAyahScript s i)).currentAyah = some i ∧
    (runScript s (handlePlayAyahScript s i)).currentSurah = s.currentSurah ∧
    (∀ j, s.currentAyah = some j → i = j + 1 →
      handleEndedScript s =
        [PStep.setAyah i, PStep.loadSrc "", PStep.wait 1000, PStep.play]) := by
  have hGetE : (filteredAyahs s)[i]? = some a := by
    rw [← List.get?_eq_getElem?]
    exact hGet
  have hscript : handlePlayAyahScript s i =
      [PStep.loadSrc "", PStep.play, PStep.setAyah i] := by
    simp [handlePlayAyahScript, hGetE, hA, hEmpty]
  refine ⟨hscript, by rw [hscript]; rfl, by rw [hscript]; rfl, ?_⟩
  intro j hj hij
  subst hij
  have hlt : j + 1 < (filteredAyahs s).length := by
    rcases List.get?_eq_some.mp hGet with ⟨h, _⟩
    exact h
  have hget : (filteredAyahs s).get ⟨j + 1, hlt⟩ = a := by
    rcases List.get?_eq_some.mp hGet with ⟨h, hg⟩
    exact hg
  simp only [handleEndedScript, hj, hA]
  rw [if_neg (by omega), dif_pos hlt, hget, hEmpty]

theorem c7_witness :
    handleEndedScript stStart = [PStep.setAyah 1, PStep.loadSrc "", PStep.wait 1000, PStep.play] :=
  (c7_empty_locator stStart 1 ayA2 rfl (by decide) rfl).2.2.2 0 rfl rfl

/-! ### C8 -/

/-- C8: both scroll-synchronization effects compute the target offset as
`elementTop - containerHeight / 2 + elementHeight / 2` clamped below at 0;
for height 400, top 1000, element height 50 the result is 825. -/
theorem c8_scrollTarget :
    (∀ containerHeight elemTop elemHeight : ℚ,
      scrollTarget containerHeight elemTop elemHeight =
        max (elemTop - containerHeight / 2 + elemHeight / 2) 0) ∧
    scrollTarget 400 1000 50 = 825 :=
  ⟨fun _ _ _ => rfl, by norm_num [scrollTarget]⟩

/-! ### C10 -/

/-- C10: `handlePlayAyah` never changes the surah list, the merged ayah
list, the active surah, or the audio-element presence; on an out-of-range
index it is a complete no-op that issues no command at all. -/
theorem c10_handlePlayAyah_frame (s : PlayerState) (i : Nat) :
    ((runScript s (handlePlayAyahScript s i)).surahs = s.surahs ∧
      (runScript s (handlePlayAyahScript s i)).ayahs = s.ayahs ∧
      (runScript s (handlePlayAyahScript s i)).currentSurah = s.currentSurah ∧
      (runScript s (handlePlayAyahScript s i)).audioPresent = s.audioPresent) ∧
    ((filteredAyahs s).length ≤ i →
      handlePlayAyahScript s i = [] ∧ runScript s (handlePlayAyahScript s i) = s) := by
  have hout : (filteredAyahs s).length ≤ i → handlePlayAyahScript s i = [] := by
    intro h
    have hnone : (filteredAyahs s)[i]? = none := List.getElem?_eq_none h
    simp [handlePlayAyahScript, hnone]
  constructor
  · refine ⟨runScript_surahs _ _, runScript_ayahs _ _, ?_, runScript_audioPresent _ _⟩
    have hscr : handlePlayAyahScript s i = [] ∨
        ∃ a : Ayah, handlePlayAyahScript s i =
          [PStep.loadSrc a.audio, PStep.play, PStep.setAyah i] := by
      cases hg : (filteredAyahs s)[i]? with
      | none => left; simp [handlePlayAyahScript, hg]
      | some a =>
          cases hA : s.audioPresent with
          | false => left; simp [handlePlayAyahScript, hg, hA]
          | true => right; exact ⟨a, by simp [handlePlayAyahScript, hg, hA]⟩
    rcases hscr with h | ⟨a, h⟩ <;> rw [h] <;> rfl
  · intro h
    exact ⟨hout h, by rw [hout h]; rfl⟩

theorem c10_witness :
    handlePlayAyahScript stStart 5 = [] ∧
    runScript stStart (handlePlayAyahScript stStart 5) = stStart :=
  (c10_handlePlayAyah_frame stStart 5).2 (by decide)

/-! ### C4 -/

/-- Every branch shape `handleEndedScript` can take. -/
theorem handleEndedScript_cases (s : PlayerState) :
    handleEndedScript s = [] ∨
    (∃ cur : Nat, ∃ hlt : cur + 1 < (filteredAyahs s).length,
      s.currentAyah = some cur ∧ s.audioPresent = true ∧
      handleEndedScript s =
        [PStep.setAyah (cur + 1),
          PStep.loadSrc ((filteredAyahs s).get ⟨cur + 1, hlt⟩).audio,
          PStep.wait 1000, PStep.play]) ∨
    (∃ ns : SurahMeta, s.surahs.get? (nextSurahIndexOf s) = some ns ∧
      s.audioPresent = true ∧
      handleEndedScript s =
        [PStep.wait 2000, PStep.setSurah ns.number, PStep.setAyah 0] ++
          match s.ayahs.filter fun a => a.surah.number == ns.number with
          | [] => []
          | a :: _ => [PStep.loadSrc a.audio, PStep.play]) := by
  cases hc : s.currentAyah with
  | none => left; simp [handleEndedScript, hc]
  | some cur =>
      cases hA : s.audioPresent with
      | false => left; simp [handleEndedScript, hc, hA]
      | true =>
          by_cases h0 : (filteredAyahs s).length = 0
          · left
            simp only [handleEndedScript, hc, hA]
            rw [if_pos h0]
          · by_cases hlt : cur + 1 < (filteredAyahs s).length
            · right; left
              refine ⟨cur, hlt, rfl, rfl, ?_⟩
              simp only [handleEndedScript, hc, hA]
              rw [if_neg h0, dif_pos hlt]
            · cases hns : s.surahs.get? (nextSurahIndexOf s) with
              | none =>
                  left
                  simp only [handleEndedScript, hc, hA]
                  rw [if_neg h0, dif_neg hlt, hns]
              | some ns =>
                  right; right
                  refine ⟨ns, rfl, rfl, ?_⟩
                  simp only [handleEndedScript, hc, hA]
                  rw [if_neg h0, dif_neg hlt, hns]

theorem selectSection_run_fields (s : PlayerState) (m : SurahMeta) :
    (runScript s (selectSectionScript s m)).currentSurah = some m.number ∧
    (runScript s (selectSectionScript s m)).currentAyah = some 0 := by
  unfold selectSectionScript
  cases hf : s.ayahs.find? fun a => a.surah.number == m.number with
  | none => exact ⟨rfl, rfl⟩
  | some a =>
      cases hA : s.audioPresent with
      | false => exact ⟨rfl, rfl⟩
      | true => exact ⟨rfl, rfl⟩

/-- C4's invariant, amended with the empty-section exception: the item
index, when present, is a valid index into the current filtered list, or it
is `0` while that list is empty. -/
def validOrEmptyZero (s : PlayerState) : Prop :=
  ∀ j, s.currentAyah = some j →
    j < (filteredAyahs s).length ∨ (j = 0 ∧ filteredAyahs s = [])

theorem validOrEmptyZero_of_zero (s' : PlayerState) (h : s'.currentAyah = some 0) :
    validOrEmptyZero s' := by
  intro j hj
  rw [h] at hj
  have hj0 : j = 0 := (Option.some.inj hj).symm
  subst hj0
  rcases Nat.eq_zero_or_pos (filteredAyahs s').length with h0 | h0
  · exact Or.inr ⟨rfl, List.length_eq_zero.mp h0⟩
  · exact Or.inl h0

theorem validOrEmptyZero_of_lt (s' : PlayerState) (i : Nat) (h : s'.currentAyah = some i)
    (hlt : i < (filteredAyahs s').length) : validOrEmptyZero s' := by
  intro j hj
  rw [h] at hj
  have hij : i = j := Option.some.inj hj
  subst hij
  exact Or.inl hlt

/-- C4 counterexample: selecting the ayah-less surah 2 of `stEmptyB` emits
item index `0` although the resulting filtered item list is empty, so the
index is out of range — refuting "no operation ever emits an out-of-range
index". -/
theorem c4_counterexample :
    (runScript stEmptyB (selectSectionScript stEmptyB mB)).currentAyah = some 0 ∧
    ¬ 0 < (filteredAyahs (runScript stEmptyB (selectSectionScript stEmptyB mB))).length := by
  decide

/-- C4 amended: every operation of the sequencer preserves the invariant
that the item index, when present, is a valid index into the then-current
filtered item list **or** is `0` with that list empty (the empty-section
exception exercised by `c4_counterexample`). -/
theorem c4_invariant (s : PlayerState) (h : validOrEmptyZero s) :
    (∀ m, validOrEmptyZero (runScript s (selectSectionScript s m))) ∧
    (∀ i, validOrEmptyZero (runScript s (handlePlayAyahScript s i))) ∧
    validOrEmptyZero (runScript s (handleEndedScript s)) := by
  refine ⟨?_, ?_, ?_⟩
  · intro m
    exact validOrEmptyZero_of_zero _ (selectSection_run_fields s m).2
  · intro i
    cases hg : (filteredAyahs s)[i]? with
    | none =>
        have hscr : handlePlayAyahScript s i = [] := by simp [handlePlayAyahScript, hg]
        rw [hscr]
        exact h
    | some a =>
        cases hA : s.audioPresent with
        | false =>
            have hscr : handlePlayAyahScript s i = [] := by
              simp [handlePlayAyahScript, hg, hA]
            rw [hscr]
            exact h
        | true =>
            have hscr : handlePlayAyahScript s i =
                [PStep.loadSrc a.audio, PStep.play, PStep.setAyah i] := by
              simp [handlePlayAyahScript, hg, hA]
            rw [hscr]
            refine validOrEmptyZero_of_lt _ i rfl ?_
            have hfa : filteredAyahs
                (runScript s [PStep.loadSrc a.audio, PStep.play, PStep.setAyah i]) =
                filteredAyahs s := filteredAyahs_congr rfl rfl
            rw [hfa]
            obtain ⟨hlt, _⟩ := List.getElem?_eq_some.mp hg
            exact hlt
  · rcases handleEndedScript_cases s with hE | ⟨cur, hlt, hc, hA, hE⟩ | ⟨ns, hns, hA, hE⟩
    · rw [hE]
      exact h
    · rw [hE]
      refine validOrEmptyZero_of_lt _ (cur + 1) rfl ?_
      have hfa : filteredAyahs (runScript s
          [PStep.setAyah (cur + 1),
            PStep.loadSrc ((filteredAyahs s).get ⟨cur + 1, hlt⟩).audio,
            PStep.wait 1000, PStep.play]) = filteredAyahs s := filteredAyahs_congr rfl rfl
      rw [hfa]
      exact hlt
    · rw [hE]
      cases htail : s.ayahs.filter fun a => a.surah.number == ns.number with
      | nil => exact validOrEmptyZero_of_zero _ rfl
      | cons a t => exact validOrEmptyZero_of_zero _ rfl

theorem c4_witness : validOrEmptyZero (runScript stStart (handleEndedScript stStart)) := by
  have h0 : validOrEmptyZero stStart := by
    intro j hj
    have hj0 : j = 0 := by
      have h : (some 0 : Option Nat) = some j := hj
      exact (Option.some.inj h).symm
    subst hj0
    left
    decide
  exact (c4_invariant stStart h0).2.2

/-! ### C3 -/

/-- C3: the code has no generation marker.  From `stRace` (surah 1 active at
its last ayah), `handleEnded` suspends for 2 seconds before switching to
surah 2.  If the user manually selects surah 3 during that delay, the stale
continuation still fires and overwrites the manual Playback Position with
`(2, 0)`: the manually selected position `some 3` is lost, refuting the
claim that the stale delayed action is discarded. -/
theorem c3_race_overwrites_manual_selection :
    handleEndedScript stRace =
      [PStep.wait 2000, PStep.setSurah 2, PStep.setAyah 0,
        PStep.loadSrc "uB1", PStep.play] ∧
    (runScript stRace (selectSectionScript stRace mC)).currentSurah = some 3 ∧
    (fireAfterInterrupt stRace (handleEndedScript stRace)
        fun s => selectSectionScript s mC).currentSurah = some 2 ∧
    ¬ (fireAfterInterrupt stRace (handleEndedScript stRace)
        fun s => selectSectionScript s mC).currentSurah = some 3 := by
  decide

/-! ### C2 -/

/-- On a duplicate-free ascending list, `findIndex` locates the unique
element whose number is `c`. -/
theorem findIdxFrom_sorted (c : Nat) :
    ∀ (l : List SurahMeta) (i k : Nat) (S : SurahMeta),
      (l.Pairwise fun a b => a.number < b.number) →
      l.get? k = some S → S.number = c →
      findIdxFrom (fun su => su.number == c) i l = some (i + k) := by
  intro l
  induction l with
  | nil => intro i k S _ hk _; simp at hk
  | cons x xs ih =>
      intro i k S hp hk hc
      cases k with
      | zero =>
          have hx : x = S := Option.some.inj hk
          subst hx
          subst hc
          simp [findIdxFrom]
      | succ k =>
          have hk' : xs.get? k = some S := hk
          have hmem : S ∈ xs := List.get?_mem hk'
          have hlt : x.number < S.number := (List.pairwise_cons.mp hp).1 S hmem
          have hpx : ¬ (x.number == c) = true := by
            simp only [beq_iff_eq]
            omega
          simp only [findIdxFrom, if_neg hpx]
          rw [ih (i + 1) k S (List.pairwise_cons.mp hp).2 hk' hc]
          congr 1
          omega

/-- Numbers are strictly increasing along a sorted surah list. -/
theorem sorted_number_lt {l : List SurahMeta}
    (hp : l.Pairwise fun a b => a.number < b.number)
    {i j : Nat} (hi : i < l.length) (hj : j < l.length) (hij : i < j) :
    (l.get ⟨i, hi⟩).number < (l.get ⟨j, hj⟩).number :=
  List.pairwise_iff_get.mp hp ⟨i, hi⟩ ⟨j, hj⟩ hij

theorem runScript_append (s : PlayerState) (l1 l2 : List PStep) :
    runScript s (l1 ++ l2) = runScript (runScript s l1) l2 := by
  simp [runScript, List.foldl_append]

theorem runScript_currentSurah_const (l : List PStep) (h : ∀ n, PStep.setSurah n ∉ l) :
    ∀ s : PlayerState, (runScript s l).currentSurah = s.currentSurah := by
  induction l with
  | nil => intro s; rfl
  | cons st l ih =>
      intro s
      rw [runScript_cons, ih fun n hn => h n (List.mem_cons_of_mem st hn)]
      cases st with
      | setSurah n => exact absurd (List.mem_cons_self _ _) (h n)
      | setAyah i => rfl
      | loadSrc src => rfl
      | play => rfl
      | wait ms => rfl

theorem runScript_currentAyah_const (l : List PStep) (h : ∀ i, PStep.setAyah i ∉ l) :
    ∀ s : PlayerState, (runScript s l).currentAyah = s.currentAyah := by
  induction l with
  | nil => intro s; rfl
  | cons st l ih =>
      intro s
      rw [runScript_cons, ih fun i hi => h i (List.mem_cons_of_mem st hi)]
      cases st with
      | setSurah n => rfl
      | setAyah i => exact absurd (List.mem_cons_self _ _) (h i)
      | loadSrc src => rfl
      | play => rfl
      | wait ms => rfl

/-- C2: at the last item of the active section (assuming the surah list is
sorted ascending, as the data model guarantees), `handleEnded` waits 2
seconds and then moves to `(nextSection, 0)`, where nextSection — resolved
positionally — is the section with the smallest identifier greater than the
active one, and plays its first item's audio if the section has any items;
if no greater section exists, nothing happens at all. -/
theorem c2_handleEnded_sectionBoundary (s : PlayerState) (c i k : Nat) (S : SurahMeta)
    (hA : s.audioPresent = true)
    (hS : s.currentSurah = some c)
    (hI : s.currentAyah = some i)
    (hLast : (filteredAyahs s).length = i + 1)
    (hSorted : s.surahs.Pairwise fun a b => a.number < b.number)
    (hk : s.surahs.get? k = some S) (hc : S.number = c) :
    ((∃ su ∈ s.surahs, c < su.number) →
      ∃ ns : SurahMeta, s.surahs.get? (k + 1) = some ns ∧ ns ∈ s.surahs ∧
        c < ns.number ∧
        (∀ su ∈ s.surahs, c < su.number → ns.number ≤ su.number) ∧
        handleEndedScript s =
          [PStep.wait 2000, PStep.setSurah ns.number, PStep.setAyah 0] ++
            (match s.ayahs.filter fun a => a.surah.number == ns.number with
             | [] => []
             | a :: _ => [PStep.loadSrc a.audio, PStep.play]) ∧
        (runScript s (handleEndedScript s)).currentSurah = some ns.number ∧
        (runScript s (handleEndedScript s)).currentAyah = some 0) ∧
    ((∀ su ∈ s.surahs, su.number ≤ c) →
      handleEndedScript s = [] ∧ runScript s (handleEndedScript s) = s) := by
  obtain ⟨hkl, hkget⟩ := List.get?_eq_some.mp hk
  have hfind : findIdxFrom (fun su => su.number == c) 0 s.surahs = some k := by
    have h := findIdxFrom_sorted c s.surahs 0 k S hSorted hk hc
    simpa using h
  have hnix : nextSurahIndexOf s = k + 1 := by
    simp only [nextSurahIndexOf, hS]
    rw [hfind]
  have hscript : handleEndedScript s =
      match s.surahs.get? (k + 1) with
      | none => []
      | some ns =>
          [PStep.wait 2000, PStep.setSurah ns.number, PStep.setAyah 0] ++
            match s.ayahs.filter fun a => a.surah.number == ns.number with
            | [] => []
            | a :: _ => [PStep.loadSrc a.audio, PStep.play] := by
    simp only [handleEndedScript, hI, hA]
    rw [if_neg (by omega), dif_neg (by omega), hnix]
  have hidx : ∀ (j : Nat) (hjl : j < s.surahs.length),
      c < (s.surahs.get ⟨j, hjl⟩).number → k < j := by
    intro j hjl hgt
    by_contra hle
    push_neg at hle
    rcases Nat.lt_or_ge j k with hjk | hjk
    · have hlt2 := sorted_number_lt hSorted hjl hkl hjk
      rw [hkget] at hlt2
      omega
    · have hjk' : j = k := by omega
      subst hjk'
      have hSj : s.surahs.get ⟨j, hjl⟩ = S := hkget
      rw [hSj] at hgt
      omega
  constructor
  · rintro ⟨su, hsu, hgt⟩
    obtain ⟨⟨j, hjl⟩, hjget⟩ := List.mem_iff_get.mp hsu
    have hkj : k < j := hidx j hjl (by rw [hjget]; exact hgt)
    have hk1l : k + 1 < s.surahs.length := by omega
    have hns : s.surahs.get? (k + 1) = some (s.surahs.get ⟨k + 1, hk1l⟩) :=
      List.get?_eq_get hk1l
    refine ⟨s.surahs.get ⟨k + 1, hk1l⟩, hns, List.get_mem _ _ _, ?_, ?_, ?_, ?_, ?_⟩
    · have h := sorted_number_lt hSorted hkl hk1l (Nat.lt_succ_self k)
      rw [hkget] at h
      omega
    · intro su' hsu' hgt'
      obtain ⟨⟨j', hj'l⟩, hj'get⟩ := List.mem_iff_get.mp hsu'
      have hkj' : k < j' := hidx j' hj'l (by rw [hj'get]; exact hgt')
      rcases Nat.eq_or_lt_of_le (by omega : k + 1 ≤ j') with heq | hlt2
      · subst heq
        have h : s.surahs.get ⟨k + 1, hk1l⟩ = su' := hj'get
        rw [h]
      · have h := sorted_number_lt hSorted hk1l hj'l hlt2
        rw [hj'get] at h
        omega
    all_goals
      have hscript2 : handleEndedScript s =
          [PStep.wait 2000, PStep.setSurah (s.surahs.get ⟨k + 1, hk1l⟩).number,
            PStep.setAyah 0] ++
            match s.ayahs.filter fun a =>
                a.surah.number == (s.surahs.get ⟨k + 1, hk1l⟩).number with
            | [] => []
            | a :: _ => [PStep.loadSrc a.audio, PStep.play] := by
        rw [hscript, hns]
      have hnoSur : ∀ n, PStep.setSurah n ∉
          (match s.ayahs.filter fun a =>
              a.surah.number == (s.surahs.get ⟨k + 1, hk1l⟩).number with
          | [] => ([] : List PStep)
          | a :: _ => [PStep.loadSrc a.audio, PStep.play]) := by
        cases s.ayahs.filter fun a =>
            a.surah.number == (s.surahs.get ⟨k + 1, hk1l⟩).number <;> simp
      have hnoAy : ∀ i, PStep.setAyah i ∉
          (match s.ayahs.filter fun a =>
              a.surah.number == (s.surahs.get ⟨k + 1, hk1l⟩).number with
          | [] => ([] : List PStep)
          | a :: _ => [PStep.loadSrc a.audio, PStep.play]) := by
        cases s.ayahs.filter fun a =>
            a.surah.number == (s.surahs.get ⟨k + 1, hk1l⟩).number <;> simp
    · exact hscript2
    · rw [hscript2, runScript_append, runScript_currentSurah_const _ hnoSur]
      rfl
    · rw [hscript2, runScript_append, runScript_currentAyah_const _ hnoAy]
      rfl
  · intro hall
    have hnone : s.surahs.get? (k + 1) = none := by
      rw [List.get?_eq_none]
      by_contra hgt2
      push_neg at hgt2
      have hmem := List.get_mem s.surahs (k + 1) hgt2
      have hgt := sorted_number_lt hSorted hkl hgt2 (Nat.lt_succ_self k)
      rw [hkget] at hgt
      have := hall _ hmem
      omega
    constructor
    · rw [hscript, hnone]
    · rw [hscript, hnone]
      rfl

theorem c2_witness : (runScript stLast (handleEndedScript stLast)).currentSurah = some 2 := by
  obtain ⟨ns, hns, _, _, _, _, hcs, _⟩ :=
    (c2_handleEnded_sectionBoundary stLast 1 1 0 mA rfl rfl rfl (by decide) (by decide)
      (by decide) rfl).1 ⟨mB, by decide, by decide⟩
  have hnsB : ns = mB := by
    have h2 : stLast.surahs.get? 1 = some mB := by decide
    rw [h2] at hns
    exact (Option.some.inj hns).symm
  rw [hnsB] at hcs
  exact hcs

/-! ### C9 -/

theorem combineAyahs_length (tr en : List SrcSurah) (si : Nat) (s : SrcSurah) :
    ∀ (ai : Nat) (l : List SrcAyah), (combineAyahs tr en si s ai l).length = l.length := by
  intro ai l
  induction l generalizing ai with
  | nil => rfl
  | cons a rest ih => simp [combineAyahs, ih]

theorem combineAyahs_get? (tr en : List SrcSurah) (si : Nat) (s : SrcSurah) :
    ∀ (ai N : Nat) (l : List SrcAyah) (a : SrcAyah), l.get? N = some a →
      (combineAyahs tr en si s ai l).get? N = some (mergeAyah tr en si (ai + N) s a) := by
  intro ai N l
  induction l generalizing ai N with
  | nil => intro a h; simp at h
  | cons x rest ih =>
      intro a h
      cases N with
      | zero =>
          have hx : x = a := Option.some.inj h
          subst hx
          rfl
      | succ N =>
          have h' : rest.get? N = some a := h
          have hrec := ih (ai + 1) N a h'
          rw [show ai + (N + 1) = ai + 1 + N from by omega]
          exact hrec

theorem combineFrom_get? (tr en : List SrcSurah) :
    ∀ (ar : List SrcSurah) (si K N : Nat) (s : SrcSurah) (a : SrcAyah),
      ar.get? K = some s → s.ayahs.get? N = some a →
      (combineFrom tr en si ar).get? (flatIdx ar K N) =
        some (mergeAyah tr en (si + K) N s a) := by
  intro ar
  induction ar with
  | nil => intro si K N s a h _; simp at h
  | cons x rest ih =>
      intro si K N s a hK hN
      cases K with
      | zero =>
          have hx : x = s := Option.some.inj hK
          subst hx
          have hflat : flatIdx (x :: rest) 0 N = N := by simp [flatIdx]
          rw [hflat]
          have hNlen : N < x.ayahs.length := by
            obtain ⟨h, _⟩ := List.get?_eq_some.mp hN
            exact h
          have hlen : N < (combineAyahs tr en si x 0 x.ayahs).length := by
            rw [combineAyahs_length]
            exact hNlen
          simp only [combineFrom]
          rw [List.get?_append hlen, combineAyahs_get? tr en si x 0 N x.ayahs a hN]
          simp
      | succ K =>
          have hK' : rest.get? K = some s := hK
          have hflat : flatIdx (x :: rest) (K + 1) N = x.ayahs.length + flatIdx rest K N := by
            simp only [flatIdx, List.take_succ_cons, List.map_cons, List.sum_cons]
            omega
          rw [hflat]
          simp only [combineFrom]
          rw [List.get?_append_right (by rw [combineAyahs_length]; omega),
            combineAyahs_length]
          rw [show x.ayahs.length + flatIdx rest K N - x.ayahs.length = flatIdx rest K N
            from by omega]
          rw [show si + (K + 1) = si + 1 + K from by omega]
          exact ih (si + 1) K N s a hK' hN

/-- C9: the load-time merge is purely positional.  The merged item at flat
position (K, N) takes its identifier, audio locator (defaulted from an
absent locator to `""`), text and section labels from item N of section K
of the recitation edition; its transliteration and translation come from
position (K, N) of the other two editions when that position exists, and
are the empty string when it does not — with no identifier-based matching
and no error (the merge is a total function). -/
theorem c9_merge_positional (ar tr en : List SrcSurah) (K N : Nat) (s : SrcSurah) (a : SrcAyah)
    (hK : ar.get? K = some s) (hN : s.ayahs.get? N = some a) :
    ∃ item : Ayah, (mergeEditions ar tr en).get? (flatIdx ar K N) = some item ∧
      item.number = a.number ∧
      item.audio = a.audio.getD "" ∧
      item.text = a.text ∧
      item.surah = { number := s.number, name := s.name, englishName := s.englishName } ∧
      (∀ tsu ta, tr.get? K = some tsu → tsu.ayahs.get? N = some ta →
        item.transliteration = ta.text) ∧
      (tr.get? K = none → item.transliteration = "") ∧
      (∀ tsu, tr.get? K = some tsu → tsu.ayahs.get? N = none →
        item.transliteration = "") ∧
      (∀ esu ea, en.get? K = some esu → esu.ayahs.get? N = some ea →
        item.translation = ea.text) ∧
      (en.get? K = none → item.translation = "") ∧
      (∀ esu, en.get? K = some esu → esu.ayahs.get? N = none →
        item.translation = "") := by
  refine ⟨mergeAyah tr en K N s a, ?_, rfl, rfl, rfl, rfl, ?_, ?_, ?_, ?_, ?_, ?_⟩
  · have h := combineFrom_get? tr en ar 0 K N s a hK hN
    simpa [mergeEditions] using h
  · intro tsu ta htsu hta
    have htsuE : tr[K]? = some tsu := by rw [← List.get?_eq_getElem?]; exact htsu
    have htaE : tsu.ayahs[N]? = some ta := by rw [← List.get?_eq_getElem?]; exact hta
    simp [mergeAyah, htsuE, htaE]
  · intro hnone
    have hnoneE : tr[K]? = none := by rw [← List.get?_eq_getElem?]; exact hnone
    simp [mergeAyah, hnoneE]
  · intro tsu htsu hta
    have htsuE : tr[K]? = some tsu := by rw [← List.get?_eq_getElem?]; exact htsu
    have htaE : tsu.ayahs[N]? = none := by rw [← List.get?_eq_getElem?]; exact hta
    simp [mergeAyah, htsuE, htaE]
  · intro esu ea hesu hea
    have hesuE : en[K]? = some esu := by rw [← List.get?_eq_getElem?]; exact hesu
    have heaE : esu.ayahs[N]? = some ea := by rw [← List.get?_eq_getElem?]; exact hea
    simp [mergeAyah, hesuE, heaE]
  · intro hnone
    have hnoneE : en[K]? = none := by rw [← List.get?_eq_getElem?]; exact hnone
    simp [mergeAyah, hnoneE]
  · intro esu hesu hea
    have hesuE : en[K]? = some esu := by rw [← List.get?_eq_getElem?]; exact hesu
    have heaE : esu.ayahs[N]? = none := by rw [← List.get?_eq_getElem?]; exact hea
    simp [mergeAyah, hesuE, heaE]

theorem c9_witness :
    ∃ item : Ayah, (mergeEditions edAr edTr edEn).get? (flatIdx edAr 0 1) = some item ∧
      item.transliteration = "" ∧ item.translation = "" ∧ item.audio = "" := by
  obtain ⟨item, hget, hnum, haud, htext, hsur, htr1, htr2, htr3, hen1, hen2, hen3⟩ :=
    c9_merge_positional edAr edTr edEn 0 1 srcSurahAr srcAyah2 (by decide) (by decide)
  refine ⟨item, hget, ?_, ?_, ?_⟩
  · exact htr3 srcSurahTr (by decide) (by decide)
  · exact hen2 (by decide)
  · rw [haud]
    rfl
